import Mathlib

/-!
# Shallow embedding of the fast-web-text GPU glyph renderer

This file embeds the texture-atlas glyph cache (`TextureAtlas`,
`TextureAtlasPage`), the glyph rasterizer boundary, the monospace
optimizer, and the instanced `WebGPURenderer.render` per-frame
instance-buffer build, and proves the frozen claims about them.

Modelling conventions:
* JS numbers used for pixel positions are modelled as `ℚ` (exact
  arithmetic); atlas coordinates and bitmap dimensions, which the code
  produces with `Math.ceil` and uses as integer texel offsets, are `Nat`.
* The mutable `TextureAtlas` object becomes explicit state passing:
  every method returns the updated atlas.  The `pages` array is stored
  with the *current* (last-created) page in the dedicated field `cur`
  and all earlier pages, most recent first, in `older`; the original
  array order is recovered by `TextureAtlas.pagesList`.  The original
  index of the current page is `older.length` (= `pages.length - 1`).
* `rasterCount` instruments the number of calls to
  `GlyphRasterizer.rasterize`, so that "no rasterization happens on a
  cache hit" is expressible; it affects nothing else.
* The rasterizer itself is an oracle `Char → GlyphStyle → Nat × Nat`
  giving the bitmap dimensions of a successfully rasterized glyph
  (the allocator only ever reads `imageData.width/height`).
-/

/-- Structure `GlyphStyle` from `TextureAtlas.ts`.  `fontSize` is a JS number;
the claims only need integral sizes, so it is a `Nat` here (JS
stringifies integral numbers the same way `Nat` does). -/
structure GlyphStyle where
  fontFamily : String
  fontSize : Nat
  color : String
  bold : Bool
  italic : Bool
deriving DecidableEq, Repr

/-- Structure `CachedGlyph` from `TextureAtlas.ts` (instanced-renderer version,
which carries the global glyph `index`). -/
structure CachedGlyph where
  page : Nat
  index : Nat
  x : Nat
  y : Nat
  width : Nat
  height : Nat
  offsetX : Nat
  offsetY : Nat
deriving DecidableEq, Repr

/-- Class `TextureAtlasPage`: shelf-packing cursor state plus the glyphs
placed on this page (the GPU texture object itself is not modelled). -/
structure TextureAtlasPage where
  x : Nat
  y : Nat
  rowHeight : Nat
  glyphs : List CachedGlyph
deriving DecidableEq, Repr

/-- A freshly created page (`new TextureAtlasPage(device, size)`). -/
def TextureAtlasPage.fresh : TextureAtlasPage :=
  { x := 0, y := 0, rowHeight := 0, glyphs := [] }

/-- Method `TextureAtlasPage.canFit(width, height, pageSize)`.  Note the
source method has a side effect: if the glyph does not fit in the
current row it moves the cursor to a new shelf row *before* answering,
so the (possibly mutated) page is returned alongside the verdict. -/
def TextureAtlasPage.canFit (p : TextureAtlasPage) (width height pageSize : Nat) :
    Bool × TextureAtlasPage :=
  let p := if p.x + width > pageSize then
    { p with x := 0, y := p.y + p.rowHeight, rowHeight := 0 }
  else p
  (p.y + height ≤ pageSize, p)

/-- Method `TextureAtlasPage.allocate(width, height)`: hand out the cursor
position and advance the cursor within the current shelf row. -/
def TextureAtlasPage.allocate (p : TextureAtlasPage) (width height : Nat) :
    (Nat × Nat) × TextureAtlasPage :=
  ((p.x, p.y), { p with x := p.x + width, rowHeight := max p.rowHeight height })

/-- The `TextureAtlas` state (instanced-renderer version with the global
glyph counter).  `cur` is the last page of the source's `pages` array,
`older` the earlier pages most recent first.  The cache is an
association list keyed by `makeKey` strings; the source `Map` is only
ever read by key and inserted at absent keys, which `List.lookup` with
cons models exactly. -/
structure TextureAtlas where
  cur : TextureAtlasPage
  older : List TextureAtlasPage
  cache : List (String × CachedGlyph)
  pageSize : Nat
  nextGlyphIndex : Nat
  rasterCount : Nat
deriving DecidableEq, Repr

namespace TextureAtlas

/-- The `pages` array in its original creation order. -/
def pagesList (a : TextureAtlas) : List TextureAtlasPage :=
  a.older.reverse ++ [a.cur]

/-- Method `getPageCount()`. -/
def pageCount (a : TextureAtlas) : Nat :=
  a.older.length + 1

/-- The `TextureAtlas` constructor: remembers the page size and creates
the first page. -/
def initial (ps : Nat) : TextureAtlas :=
  { cur := TextureAtlasPage.fresh, older := [], cache := [], pageSize := ps,
    nextGlyphIndex := 0, rasterCount := 0 }

/-- Method `makeKey(char, style)`: the template string
`` `${char}_${family}_${size}_${color}_${bold}_${italic}` ``. -/
def makeKey (c : Char) (s : GlyphStyle) : String :=
  String.singleton c ++ "_" ++ s.fontFamily ++ "_" ++ toString s.fontSize ++ "_"
    ++ s.color ++ "_" ++ toString s.bold ++ "_" ++ toString s.italic

/-- Method `allocateGlyph`: try the current (= last) page, after `canFit`'s
possible shelf-row wrap; on overflow create a new page and place the
bitmap there.  The glyph is recorded in the cache and in the page's
`glyphs` list, and takes the next global glyph index. -/
def allocateGlyph (a : TextureAtlas) (width height : Nat) (key : String) :
    CachedGlyph × TextureAtlas :=
  let fit := a.cur.canFit width height a.pageSize
  if fit.1 then
    let alloc := fit.2.allocate width height
    let g : CachedGlyph :=
      { page := a.older.length, index := a.nextGlyphIndex,
        x := alloc.1.1, y := alloc.1.2, width := width, height := height,
        offsetX := 0, offsetY := 0 }
    let p0 := alloc.2
    let p : TextureAtlasPage := { p0 with glyphs := p0.glyphs ++ [g] }
    (g, { a with
          cur := p
          cache := (key, g) :: a.cache
          nextGlyphIndex := a.nextGlyphIndex + 1 })
  else
    let alloc := TextureAtlasPage.fresh.allocate width height
    let g : CachedGlyph :=
      { page := a.older.length + 1, index := a.nextGlyphIndex,
        x := alloc.1.1, y := alloc.1.2, width := width, height := height,
        offsetX := 0, offsetY := 0 }
    let p0 := alloc.2
    let p : TextureAtlasPage := { p0 with glyphs := p0.glyphs ++ [g] }
    (g, { a with
          cur := p
          older := fit.2 :: a.older
          cache := (key, g) :: a.cache
          nextGlyphIndex := a.nextGlyphIndex + 1 })

/-- Method `getGlyph(char, style)`: cache hit returns the cached entry
untouched; a miss rasterizes (counted by `rasterCount`) and allocates.
`raster` abstracts `GlyphRasterizer.rasterize` returning the bitmap's
`(width, height)`. -/
def getGlyph (raster : Char → GlyphStyle → Nat × Nat) (a : TextureAtlas)
    (c : Char) (s : GlyphStyle) : CachedGlyph × TextureAtlas :=
  let key := makeKey c s
  match a.cache.lookup key with
  | some g => (g, a)
  | none =>
      let wh := raster c s
      allocateGlyph { a with rasterCount := a.rasterCount + 1 } wh.1 wh.2 key

/-- Run a sequence of `getGlyph` requests, threading the atlas state. -/
def run (raster : Char → GlyphStyle → Nat × Nat) (a : TextureAtlas)
    (reqs : List (Char × GlyphStyle)) : TextureAtlas :=
  reqs.foldl (fun a r => (getGlyph raster a r.1 r.2).2) a

end TextureAtlas

/-!
## Rasterizer boundary (`GlyphRasterizer.ts`)

`rasterize` measures the character with `measureText`, takes
`Math.ceil` of the advance width and of ascent+descent, and calls
`ctx.getImageData(0, 0, width, height)`.  Per the canvas specification
`getImageData` throws `IndexSizeError` when either dimension is zero,
and `rasterize` has no catch block, so a zero-sized measurement makes
`rasterize` — and therefore `getGlyph` — throw to its caller.
`Except` models the exception path.
-/

/-- The subset of `TextMetrics` that `rasterize` reads. -/
structure TextMetrics where
  width : ℚ
  fontBoundingBoxAscent : ℚ
  fontBoundingBoxDescent : ℚ

/-- Method `GlyphRasterizer.rasterize`, with `measure` abstracting
`ctx.measureText` for the active font.  Returns the dimensions of the
produced `ImageData`, or the `DOMException` name `getImageData` throws
on a zero-sized request. -/
def GlyphRasterizer.rasterize (measure : Char → GlyphStyle → TextMetrics)
    (c : Char) (s : GlyphStyle) : Except String (Nat × Nat) :=
  let m := measure c s
  let width := (Int.ceil m.width).toNat
  let height := (Int.ceil (m.fontBoundingBoxAscent + m.fontBoundingBoxDescent)).toNat
  if width = 0 ∨ height = 0 then
    Except.error "IndexSizeError"
  else
    Except.ok (width, height)

/-- Method `getGlyph` with the real rasterizer in place of the dimension
oracle: a cache miss calls `rasterize`, and any exception it throws
propagates out of `getGlyph` unhandled (there is no try/catch and no
fallback-glyph path in the source). -/
def TextureAtlas.getGlyphE (measure : Char → GlyphStyle → TextMetrics)
    (a : TextureAtlas) (c : Char) (s : GlyphStyle) :
    Except String (CachedGlyph × TextureAtlas) :=
  let key := TextureAtlas.makeKey c s
  match a.cache.lookup key with
  | some g => Except.ok (g, a)
  | none =>
      match GlyphRasterizer.rasterize measure c s with
      | Except.error e => Except.error e
      | Except.ok wh =>
          Except.ok (TextureAtlas.allocateGlyph
            { a with rasterCount := a.rasterCount + 1 } wh.1 wh.2 key)

/-!
## `MonospaceOptimizer` (`optimizations/MonospaceOptimizer.ts`)
-/

/-- The optimizer's persistent state. -/
structure MonospaceOptimizer where
  isMonospace : Bool
  charWidth : ℚ
deriving DecidableEq, Repr

/-- The probe characters of `detectMonospace` ("iMW0123"). -/
def monospaceTestChars : List Char := ['i', 'M', 'W', '0', '1', '2', '3']

/-- Method `detectMonospace`: all probe widths equal within 0.1px declares the
font monospace and caches the first probe's width.  `measure`
abstracts `ctx.measureText(...).width` for the configured font. -/
def MonospaceOptimizer.detectMonospace (st : MonospaceOptimizer)
    (measure : Char → ℚ) : MonospaceOptimizer :=
  let widths := monospaceTestChars.map measure
  let w0 := widths.headD 0
  let allEqual := widths.all (fun w => |w - w0| < 1/10)
  if allEqual then { st with isMonospace := true, charWidth := w0 } else st

/-- Method `getCharPosition(column, text)`: O(1) product on the monospace fast
path, otherwise cumulative measurement of the prefix substring
(`measureWidth` abstracts `ctx.measureText` on strings). -/
def MonospaceOptimizer.getCharPosition (st : MonospaceOptimizer)
    (measureWidth : List Char → ℚ) (column : Nat) (text : List Char) : ℚ :=
  if st.isMonospace then
    (column : ℚ) * st.charWidth
  else
    measureWidth (text.take column)

/-!
## The instanced renderer (`WebGPURenderer.render`, second version)

`render(visibleLines, scrollTop)` builds the per-frame cell array:
per retained (on-screen) line, per character, it skips `' '`, resolves
the glyph through the atlas, and appends one Cell with
`x = i * charWidth`, stopping when `glyphCount` reaches
`MAX_VISIBLE_GLYPHS`.  It then issues no draw call when
`glyphCount === 0` (early return) and exactly one instanced draw call
with instance count `glyphCount` otherwise.  The model returns the
cell list, the list of issued draw calls (each recorded by its
instance count), and the final atlas.
-/

/-- One entry of the `cellData` array: six floats
`[x, y, unused, unused, glyphIndex, textureLayer]`. -/
structure Cell where
  posX : ℚ
  posY : ℚ
  unusedA : ℚ
  unusedB : ℚ
  glyphIndex : Nat
  texLayer : Nat
deriving DecidableEq, Repr

/-- Interface `LineData`: the token spans are never read by `render`, so only the
text and the line index are modelled. -/
structure LineData where
  line : List Char
  lineNumber : Nat
deriving DecidableEq, Repr

/-- The fixed style `render` uses for every glyph. -/
def renderStyle : GlyphStyle :=
  { fontFamily := "monospace", fontSize := 14, color := "#FFFFFF",
    bold := false, italic := false }

/-- Constant `FLOATS_PER_CELL` from the source. -/
def FLOATS_PER_CELL : Nat := 6

/-- Constant `MAX_VISIBLE_GLYPHS` from the source: the instance capacity of the
pre-allocated cell storage buffer. -/
def MAX_VISIBLE_GLYPHS : Nat := 10000

/-- The renderer configuration that the cell build reads:
`this.charWidth`, `this.lineHeight`, `this.canvas.height`. -/
structure RenderConfig where
  charWidth : ℚ
  lineHeight : ℚ
  canvasHeight : ℚ
deriving DecidableEq, Repr

/-- The Cell entry written for one glyph: position `(x, y)`, two
padding floats, then `glyph.index` and `glyph.page`. -/
def mkCell (x y : ℚ) (g : CachedGlyph) : Cell :=
  { posX := x, posY := y, unusedA := 0, unusedB := 0,
    glyphIndex := g.index, texLayer := g.page }

/-- The inner character loop of `render` for one retained line:
`for (let i = 0; i < line.length && glyphCount < cap; i++)`, skipping
`' '`, fetching the glyph, and appending one Cell with
`x = i * charWidth`.  `cap` is the instance capacity
(`MAX_VISIBLE_GLYPHS` in the source). -/
def buildLineAux (cap : Nat) (raster : Char → GlyphStyle → Nat × Nat)
    (cw y : ℚ) :
    List Char → Nat → List Cell → Nat → TextureAtlas →
    List Cell × TextureAtlas × Nat
  | [], _, cells, count, a => (cells, a, count)
  | c :: rest, i, cells, count, a =>
    if count < cap then
      if c = ' ' then
        buildLineAux cap raster cw y rest (i + 1) cells count a
      else
        let r := TextureAtlas.getGlyph raster a c renderStyle
        buildLineAux cap raster cw y rest (i + 1)
          (cells ++ [mkCell ((i : ℚ) * cw) y r.1]) (count + 1) r.2
    else (cells, a, count)

/-- The line loop of `render`: compute the line's `y`, cull off-screen
lines (`y + lineHeight < 0 || y > canvas.height`), and run the
character loop on retained lines. -/
def buildCells (cap : Nat) (raster : Char → GlyphStyle → Nat × Nat)
    (cfg : RenderConfig) :
    List LineData → ℚ → List Cell → Nat → TextureAtlas →
    List Cell × TextureAtlas × Nat
  | [], _, cells, count, a => (cells, a, count)
  | ld :: rest, scrollTop, cells, count, a =>
    let y := (ld.lineNumber : ℚ) * cfg.lineHeight - scrollTop
    if y + cfg.lineHeight < 0 ∨ y > cfg.canvasHeight then
      buildCells cap raster cfg rest scrollTop cells count a
    else
      let r := buildLineAux cap raster cfg.charWidth y ld.line 0 cells count a
      buildCells cap raster cfg rest scrollTop r.1 r.2.2 r.2.1

/-- Method `render(visibleLines, scrollTop)` with instance capacity `cap`:
build the cells, then either return early with no draw submission
(`glyphCount === 0`) or submit exactly one instanced draw call whose
instance count is `glyphCount`.  The middle component lists the issued
draw calls by instance count. -/
def renderModel (cap : Nat) (raster : Char → GlyphStyle → Nat × Nat)
    (cfg : RenderConfig) (visibleLines : List LineData) (scrollTop : ℚ)
    (a : TextureAtlas) : List Cell × List Nat × TextureAtlas :=
  let r := buildCells cap raster cfg visibleLines scrollTop [] 0 a
  if r.2.2 = 0 then (r.1, [], r.2.1) else (r.1, [r.2.2], r.2.1)

/-- The program's `render`, at its actual capacity `MAX_VISIBLE_GLYPHS`. -/
def render (raster : Char → GlyphStyle → Nat × Nat) (cfg : RenderConfig)
    (visibleLines : List LineData) (scrollTop : ℚ) (a : TextureAtlas) :
    List Cell × List Nat × TextureAtlas :=
  renderModel MAX_VISIBLE_GLYPHS raster cfg visibleLines scrollTop a

/-!
## Specification-side descriptions of the cell build

`lineCandidates` / `allCandidates` list, in scan order, the screen
position of every visible non-whitespace-skipped character *without*
the capacity guard; `visibleCount` is the claims' `N`.
-/

/-- Positions of the non-`' '` characters of one line, in order:
character `i` contributes `(i * charWidth, y)`. -/
def lineCandidates (cw y : ℚ) : List Char → Nat → List (ℚ × ℚ)
  | [], _ => []
  | c :: rest, i =>
    if c = ' ' then lineCandidates cw y rest (i + 1)
    else ((i : ℚ) * cw, y) :: lineCandidates cw y rest (i + 1)

/-- Positions of all visible non-whitespace-skipped characters of the
frame, in scan order (retained lines in the given order, characters
left to right). -/
def allCandidates (cfg : RenderConfig) : List LineData → ℚ → List (ℚ × ℚ)
  | [], _ => []
  | ld :: rest, scrollTop =>
    let y := (ld.lineNumber : ℚ) * cfg.lineHeight - scrollTop
    if y + cfg.lineHeight < 0 ∨ y > cfg.canvasHeight then
      allCandidates cfg rest scrollTop
    else
      lineCandidates cfg.charWidth y ld.line 0 ++ allCandidates cfg rest scrollTop

/-- The number `N` of visible, non-whitespace-skipped characters of a
frame. -/
def visibleCount (cfg : RenderConfig) (lines : List LineData) (scrollTop : ℚ) : Nat :=
  (allCandidates cfg lines scrollTop).length

/-- The screen position stored in a cell. -/
def Cell.pos (cl : Cell) : ℚ × ℚ := (cl.posX, cl.posY)

/-- Two glyph rectangles `[x, x+w) × [y, y+h)` share a pixel. -/
def CachedGlyph.Overlap (g₁ g₂ : CachedGlyph) : Prop :=
  max g₁.x g₂.x < min (g₁.x + g₁.width) (g₂.x + g₂.width) ∧
  max g₁.y g₂.y < min (g₁.y + g₁.height) (g₂.y + g₂.height)

instance (g₁ g₂ : CachedGlyph) : Decidable (g₁.Overlap g₂) := by
  unfold CachedGlyph.Overlap; infer_instance

/-- A constant-dimension raster oracle used by concrete witnesses. -/
def rasterK : Char → GlyphStyle → Nat × Nat := fun _ _ => (3, 4)

/-- Concrete configuration used by concrete witnesses: the source's
defaults (`charWidth = 10`, `lineHeight = 18`) and a 180px canvas. -/
def cfgK : RenderConfig := { charWidth := 10, lineHeight := 18, canvasHeight := 180 }

/-!
## Cache lemmas
-/

namespace TextureAtlas

/-- Lemma: `allocateGlyph` conses the new glyph onto the cache. -/
theorem allocateGlyph_cache (a : TextureAtlas) (w h : Nat) (key : String) :
    (a.allocateGlyph w h key).2.cache = (key, (a.allocateGlyph w h key).1) :: a.cache := by
  unfold allocateGlyph
  by_cases hf : (a.cur.canFit w h a.pageSize).1 <;> simp [hf]

/-- Lemma: `allocateGlyph` assigns the running global index and bumps it. -/
theorem allocateGlyph_index (a : TextureAtlas) (w h : Nat) (key : String) :
    (a.allocateGlyph w h key).1.index = a.nextGlyphIndex ∧
      (a.allocateGlyph w h key).2.nextGlyphIndex = a.nextGlyphIndex + 1 := by
  unfold allocateGlyph
  by_cases hf : (a.cur.canFit w h a.pageSize).1 <;> simp [hf]

/-- Unfolding `getGlyph` on a cache hit: nothing at all happens. -/
theorem getGlyph_hit (raster : Char → GlyphStyle → Nat × Nat) (a : TextureAtlas)
    (c : Char) (s : GlyphStyle) (g : CachedGlyph)
    (h : a.cache.lookup (makeKey c s) = some g) :
    a.getGlyph raster c s = (g, a) := by
  simp only [getGlyph]
  rw [h]

/-- Unfolding `getGlyph` on a cache miss. -/
theorem getGlyph_miss (raster : Char → GlyphStyle → Nat × Nat) (a : TextureAtlas)
    (c : Char) (s : GlyphStyle)
    (h : a.cache.lookup (makeKey c s) = none) :
    a.getGlyph raster c s =
      allocateGlyph { a with rasterCount := a.rasterCount + 1 }
        (raster c s).1 (raster c s).2 (makeKey c s) := by
  simp only [getGlyph]
  rw [h]

/-- After `getGlyph`, the key maps to the returned glyph. -/
theorem getGlyph_lookup_self (raster : Char → GlyphStyle → Nat × Nat)
    (a : TextureAtlas) (c : Char) (s : GlyphStyle) :
    (a.getGlyph raster c s).2.cache.lookup (makeKey c s) =
      some (a.getGlyph raster c s).1 := by
  rcases hl : a.cache.lookup (makeKey c s) with _ | g
  · rw [getGlyph_miss raster a c s hl, allocateGlyph_cache]
    simp [List.lookup]
  · rw [getGlyph_hit raster a c s g hl]
    exact hl

/-- A `getGlyph` call never disturbs an existing cache binding. -/
theorem getGlyph_lookup_mono (raster : Char → GlyphStyle → Nat × Nat)
    (a : TextureAtlas) (c : Char) (s : GlyphStyle) (k : String) (g : CachedGlyph)
    (h : a.cache.lookup k = some g) :
    (a.getGlyph raster c s).2.cache.lookup k = some g := by
  rcases hl : a.cache.lookup (makeKey c s) with _ | g'
  · rw [getGlyph_miss raster a c s hl, allocateGlyph_cache]
    have hne : ¬ (k == makeKey c s) = true := by
      intro he
      rw [eq_of_beq he, hl] at h
      exact Option.noConfusion h
    simp only [List.lookup, hne]
    simpa using h
  · rw [getGlyph_hit raster a c s g' hl]
    exact h

/-- Cache bindings survive any further request sequence. -/
theorem run_lookup_mono (raster : Char → GlyphStyle → Nat × Nat)
    (reqs : List (Char × GlyphStyle)) (a : TextureAtlas) (k : String)
    (g : CachedGlyph) (h : a.cache.lookup k = some g) :
    (a.run raster reqs).cache.lookup k = some g := by
  induction reqs generalizing a with
  | nil => exact h
  | cons r rest ih =>
      exact ih _ (getGlyph_lookup_mono raster a r.1 r.2 k g h)

end TextureAtlas

namespace TextureAtlas

/-- A key that misses the cache is not among the cached keys. -/
theorem lookup_none_not_mem (k : String) (l : List (String × CachedGlyph))
    (h : l.lookup k = none) : k ∉ l.map Prod.fst := by
  induction l with
  | nil => simp
  | cons e rest ih =>
      simp only [List.lookup] at h
      rcases hbe : (k == e.1) with _ | _
      · rw [hbe] at h
        simp only [List.map_cons, List.mem_cons]
        rintro (rfl | hm)
        · simp at hbe
        · exact ih h hm
      · rw [hbe] at h
        exact Option.noConfusion h

/-- The glyph-index invariant of the cache: reading the association
list newest-first, the stored global indices are `k-1, ..., 1, 0`
(`k` the number of cached keys, which equals the running counter),
and the cached keys are pairwise distinct. -/
def CacheIndexInv (a : TextureAtlas) : Prop :=
  (a.cache.map fun e => e.2.index) = (List.range a.nextGlyphIndex).reverse ∧
    (a.cache.map Prod.fst).Nodup

theorem cacheIndexInv_initial (ps : Nat) : CacheIndexInv (initial ps) := by
  constructor <;> simp [initial]

theorem cacheIndexInv_getGlyph (raster : Char → GlyphStyle → Nat × Nat)
    (a : TextureAtlas) (c : Char) (s : GlyphStyle) (h : CacheIndexInv a) :
    CacheIndexInv (a.getGlyph raster c s).2 := by
  rcases hl : a.cache.lookup (makeKey c s) with _ | g'
  · rw [getGlyph_miss raster a c s hl]
    obtain ⟨hidx, hkeys⟩ := h
    constructor
    · rw [allocateGlyph_cache]
      simp only [List.map_cons]
      rw [(allocateGlyph_index _ _ _ _).1, (allocateGlyph_index _ _ _ _).2]
      simp only [List.range_succ, List.reverse_append, List.reverse_singleton]
      simpa using hidx
    · rw [allocateGlyph_cache]
      simp only [List.map_cons, List.nodup_cons]
      exact ⟨lookup_none_not_mem _ _ hl, hkeys⟩
  · rw [getGlyph_hit raster a c s g' hl]
    exact h

theorem cacheIndexInv_run (raster : Char → GlyphStyle → Nat × Nat)
    (reqs : List (Char × GlyphStyle)) (a : TextureAtlas)
    (h : CacheIndexInv a) : CacheIndexInv (a.run raster reqs) := by
  induction reqs generalizing a with
  | nil => exact h
  | cons r rest ih => exact ih _ (cacheIndexInv_getGlyph raster a r.1 r.2 h)

end TextureAtlas

/-!
## Claim C2
-/

/-- A style whose `makeKey` collides with `styleCollideB`'s: the key
template joins fields with `_` without escaping, so
`family "a_1", size 2, color "c"` and `family "a", size 1, color
"2_c"` both produce the key `"x_a_1_2_c_false_false"`. -/
def styleCollideA : GlyphStyle :=
  { fontFamily := "a_1", fontSize := 2, color := "c", bold := false, italic := false }

/-- See `styleCollideA`. -/
def styleCollideB : GlyphStyle :=
  { fontFamily := "a", fontSize := 1, color := "2_c", bold := false, italic := false }

/-- C2 counterexample: two *distinct* (character, style) pairs whose
`makeKey` strings collide are given the *same* global glyph index (the
second request hits the first pair's cache entry), and after the two
distinct pairs have been requested only one glyph is cached, so the
assigned indices are `{0}` and not the dense range `{0, 1}`.  This
refutes the claim as stated (uniqueness over distinct (character,
style) pairs). -/
theorem c2_counterexample :
    styleCollideA ≠ styleCollideB ∧
    TextureAtlas.makeKey 'x' styleCollideA = TextureAtlas.makeKey 'x' styleCollideB ∧
    ((((TextureAtlas.initial 2048).getGlyph rasterK 'x' styleCollideA).2.getGlyph
        rasterK 'x' styleCollideB).1.index =
      (((TextureAtlas.initial 2048)).getGlyph rasterK 'x' styleCollideA).1.index) ∧
    (((TextureAtlas.initial 2048).getGlyph rasterK 'x' styleCollideA).2.getGlyph
        rasterK 'x' styleCollideB).2.nextGlyphIndex = 1 := by
  refine ⟨by decide, by decide, ?_, ?_⟩ <;> decide

/-- C2 (amended): for every sequence of `getGlyph` calls, the glyph
indices recorded in the cache — one entry per distinct `makeKey`
*string*, newest first — are exactly `k-1, ..., 1, 0` where `k` is the
number of cached entries: pairwise distinct, forming the dense range
`{0, ..., k-1}`, with index `0` held by the first glyph ever cached
(the oldest entry); and the cached key strings are pairwise distinct.
The claim's quantification over distinct (character, style) *pairs*
must be weakened to distinct `makeKey` strings (see
`c2_counterexample`). -/
theorem c2_amended (ps : Nat) (raster : Char → GlyphStyle → Nat × Nat)
    (reqs : List (Char × GlyphStyle)) :
    (((TextureAtlas.initial ps).run raster reqs).cache.map fun e => e.2.index) =
      (List.range ((TextureAtlas.initial ps).run raster reqs).cache.length).reverse ∧
    (((TextureAtlas.initial ps).run raster reqs).cache.map Prod.fst).Nodup := by
  obtain ⟨h1, h2⟩ :=
    TextureAtlas.cacheIndexInv_run raster reqs (TextureAtlas.initial ps)
      (TextureAtlas.cacheIndexInv_initial ps)
  have hlen : ((TextureAtlas.initial ps).run raster reqs).cache.length =
      ((TextureAtlas.initial ps).run raster reqs).nextGlyphIndex := by
    have := congrArg List.length h1
    simpa using this
  rw [hlen]
  exact ⟨h1, h2⟩

/-!
## Claim C3
-/

/-- C3: once `getGlyph(char, style)` has returned a glyph, every later
call for the same pair — immediately or after any interleaved sequence
of other `getGlyph` calls — returns *the very same* `CachedGlyph`
(same page, index, x, y, width, height) and returns the atlas
untouched: same pages and shelf cursors, same cache, same
`nextGlyphIndex`, and same `rasterCount`, i.e. no rasterization and no
allocation is performed by the repeated call. -/
theorem c3_idempotent (raster : Char → GlyphStyle → Nat × Nat)
    (a : TextureAtlas) (c : Char) (s : GlyphStyle) (g : CachedGlyph)
    (a₁ : TextureAtlas) (h : a.getGlyph raster c s = (g, a₁)) :
    a₁.getGlyph raster c s = (g, a₁) ∧
    ∀ reqs : List (Char × GlyphStyle),
      (a₁.run raster reqs).getGlyph raster c s = (g, a₁.run raster reqs) := by
  have hl : a₁.cache.lookup (TextureAtlas.makeKey c s) = some g := by
    have hself := TextureAtlas.getGlyph_lookup_self raster a c s
    rw [h] at hself
    exact hself
  refine ⟨TextureAtlas.getGlyph_hit raster a₁ c s g hl, fun reqs => ?_⟩
  exact TextureAtlas.getGlyph_hit raster _ c s g
    (TextureAtlas.run_lookup_mono raster reqs a₁ _ g hl)

/-- C3 witness: a concrete repeated call, with one interleaved
request, returns the first call's glyph and leaves the atlas alone. -/
theorem c3_witness :
    ((TextureAtlas.initial 2048).getGlyph rasterK 'a' renderStyle).2.getGlyph
        rasterK 'a' renderStyle =
      (((TextureAtlas.initial 2048).getGlyph rasterK 'a' renderStyle).1,
        ((TextureAtlas.initial 2048).getGlyph rasterK 'a' renderStyle).2) :=
  (c3_idempotent rasterK (TextureAtlas.initial 2048) 'a' renderStyle
    ((TextureAtlas.initial 2048).getGlyph rasterK 'a' renderStyle).1
    ((TextureAtlas.initial 2048).getGlyph rasterK 'a' renderStyle).2 rfl).1

/-!
## Claims C4 and C5: shelf-packing geometry
-/

namespace TextureAtlasPage

/-- The shelf invariant of one page: every placed glyph either lies in
a closed row entirely above the cursor row, or lies in the current row
(its top at the cursor's `y`, its right edge at or left of the
cursor's `x`, its height within the current `rowHeight`); and the
placed glyphs are pairwise non-overlapping. -/
def Inv (p : TextureAtlasPage) : Prop :=
  (∀ g ∈ p.glyphs,
      g.y + g.height ≤ p.y ∨
        (g.y = p.y ∧ g.x + g.width ≤ p.x ∧ g.height ≤ p.rowHeight)) ∧
  p.glyphs.Pairwise fun g₁ g₂ => ¬ g₁.Overlap g₂

theorem inv_fresh : Inv fresh := by
  constructor <;> simp [fresh]

/-- Lemma: `canFit` never touches the placed glyphs. -/
theorem canFit_glyphs (p : TextureAtlasPage) (w h ps : Nat) :
    (p.canFit w h ps).2.glyphs = p.glyphs := by
  unfold canFit
  by_cases hx : p.x + w > ps <;> simp [hx]

/-- The shelf invariant survives `canFit`'s possible row wrap. -/
theorem canFit_inv (p : TextureAtlasPage) (w h ps : Nat) (hp : Inv p) :
    Inv (p.canFit w h ps).2 := by
  unfold canFit
  by_cases hx : p.x + w > ps <;> simp only [hx, if_true, if_false, ite_true, ite_false]
  · obtain ⟨h1, h2⟩ := hp
    refine ⟨fun g hg => ?_, h2⟩
    dsimp only at hg ⊢
    rcases h1 g hg with hc | ⟨hy, _, hh⟩
    · left; omega
    · left; omega
  · exact hp

/-- Placing a glyph at the cursor of a page satisfying the invariant
keeps the invariant; in particular the new glyph overlaps no glyph
already on the page. -/
theorem inv_place (p : TextureAtlasPage) (g : CachedGlyph)
    (hx : g.x = p.x) (hy : g.y = p.y) (hp : Inv p) :
    Inv { x := p.x + g.width, y := p.y, rowHeight := max p.rowHeight g.height,
          glyphs := p.glyphs ++ [g] } := by
  obtain ⟨h1, h2⟩ := hp
  constructor
  · intro g' hg'
    dsimp only at hg' ⊢
    rcases List.mem_append.1 hg' with hg' | hg'
    · rcases h1 g' hg' with hc | ⟨hy', hx', hh'⟩
      · left; exact hc
      · right
        refine ⟨hy', by omega, le_trans hh' (le_max_left _ _)⟩
    · rcases List.mem_singleton.1 hg' with rfl
      right
      exact ⟨hy, by omega, le_max_right _ _⟩
  · rw [List.pairwise_append]
    refine ⟨h2, List.pairwise_singleton _ _, fun g' hg' g'' hg'' => ?_⟩
    rcases List.mem_singleton.1 hg'' with rfl
    rcases h1 g' hg' with hc | ⟨_, hx', _⟩
    · intro hov
      unfold CachedGlyph.Overlap at hov
      omega
    · intro hov
      unfold CachedGlyph.Overlap at hov
      omega

end TextureAtlasPage

namespace TextureAtlas

/-- The per-page shelf invariant, over every page of the atlas. -/
def Inv (a : TextureAtlas) : Prop :=
  a.cur.Inv ∧ ∀ p ∈ a.older, p.Inv

theorem inv_initial (ps : Nat) : Inv (initial ps) := by
  exact ⟨TextureAtlasPage.inv_fresh, by simp [initial]⟩

theorem inv_allocateGlyph (a : TextureAtlas) (w h : Nat) (key : String)
    (ha : Inv a) : Inv (a.allocateGlyph w h key).2 := by
  obtain ⟨hcur, holder⟩ := ha
  have hfit := TextureAtlasPage.canFit_inv a.cur w h a.pageSize hcur
  have hfitg := TextureAtlasPage.canFit_glyphs a.cur w h a.pageSize
  unfold allocateGlyph
  by_cases hf : (a.cur.canFit w h a.pageSize).1 <;> simp only [hf, if_true, if_false, ite_true, ite_false]
  · refine ⟨?_, holder⟩
    exact TextureAtlasPage.inv_place _ _ rfl rfl hfit
  · refine ⟨?_, ?_⟩
    · exact TextureAtlasPage.inv_place _ _ rfl rfl TextureAtlasPage.inv_fresh
    · intro p hp
      rcases List.mem_cons.1 hp with rfl | hp
      · exact hfit
      · exact holder p hp

theorem inv_getGlyph (raster : Char → GlyphStyle → Nat × Nat)
    (a : TextureAtlas) (c : Char) (s : GlyphStyle) (ha : Inv a) :
    Inv (a.getGlyph raster c s).2 := by
  rcases hl : a.cache.lookup (makeKey c s) with _ | g'
  · rw [getGlyph_miss raster a c s hl]
    exact inv_allocateGlyph _ _ _ _ ⟨ha.1, ha.2⟩
  · rw [getGlyph_hit raster a c s g' hl]
    exact ha

theorem inv_run (raster : Char → GlyphStyle → Nat × Nat)
    (reqs : List (Char × GlyphStyle)) (a : TextureAtlas) (ha : Inv a) :
    Inv (a.run raster reqs) := by
  induction reqs generalizing a with
  | nil => exact ha
  | cons r rest ih => exact ih _ (inv_getGlyph raster a r.1 r.2 ha)

end TextureAtlas

/-!
## Claim C4
-/

/-- C4: for every sequence of `getGlyph` requests against a fresh
atlas (any page size, any rasterized bitmap dimensions), any two
glyphs placed on the same atlas page occupy non-overlapping pixel
rectangles `[x, x+width) × [y, y+height)`. -/
theorem c4_no_overlap (ps : Nat) (raster : Char → GlyphStyle → Nat × Nat)
    (reqs : List (Char × GlyphStyle)) (p : TextureAtlasPage)
    (hp : p ∈ ((TextureAtlas.initial ps).run raster reqs).pagesList) :
    p.glyphs.Pairwise fun g₁ g₂ => ¬ g₁.Overlap g₂ := by
  have hinv := TextureAtlas.inv_run raster reqs (TextureAtlas.initial ps)
    (TextureAtlas.inv_initial ps)
  unfold TextureAtlas.pagesList at hp
  rcases List.mem_append.1 hp with hp | hp
  · exact (hinv.2 p (List.mem_reverse.1 hp)).2
  · rcases List.mem_singleton.1 hp with rfl
    exact hinv.1.2

/-- C4 witness: the single page of a small concrete run. -/
theorem c4_witness :
    ((TextureAtlas.initial 2048).run rasterK
        [('a', renderStyle), ('b', renderStyle)]).cur ∈
      ((TextureAtlas.initial 2048).run rasterK
        [('a', renderStyle), ('b', renderStyle)]).pagesList ∧
    ((TextureAtlas.initial 2048).run rasterK
        [('a', renderStyle), ('b', renderStyle)]).cur.glyphs.Pairwise
      (fun g₁ g₂ => ¬ g₁.Overlap g₂) :=
  ⟨List.mem_append_right _ (List.mem_singleton.2 rfl),
    c4_no_overlap 2048 rasterK [('a', renderStyle), ('b', renderStyle)] _
      (List.mem_append_right _ (List.mem_singleton.2 rfl))⟩

namespace TextureAtlasPage

/-- Page-bounds invariant of one page: cursor and all placed
rectangles within `pageSize × pageSize`. -/
def InBounds (p : TextureAtlasPage) (ps : Nat) : Prop :=
  p.x ≤ ps ∧ p.y + p.rowHeight ≤ ps ∧
    ∀ g ∈ p.glyphs, g.x + g.width ≤ ps ∧ g.y + g.height ≤ ps

theorem inBounds_fresh (ps : Nat) : InBounds fresh ps := by
  refine ⟨Nat.zero_le _, by simp [fresh], by simp [fresh]⟩

theorem canFit_inBounds (p : TextureAtlasPage) (w h ps : Nat)
    (hp : InBounds p ps) : InBounds (p.canFit w h ps).2 ps := by
  obtain ⟨h1, h2, h3⟩ := hp
  unfold canFit
  by_cases hx : p.x + w > ps <;>
    simp only [hx, if_true, if_false, ite_true, ite_false]
  · exact ⟨Nat.zero_le _, by dsimp only; omega, h3⟩
  · exact ⟨h1, h2, h3⟩

/-- After `canFit`, the cursor either sits at the row start or still
has room for the requested width. -/
theorem canFit_x (p : TextureAtlasPage) (w h ps : Nat) :
    (p.canFit w h ps).2.x = 0 ∨ (p.canFit w h ps).2.x + w ≤ ps := by
  unfold canFit
  by_cases hx : p.x + w > ps <;> simp [hx]
  all_goals omega

/-- A `true` verdict from `canFit` means the requested height fits
below the (possibly wrapped) cursor. -/
theorem canFit_true_y (p : TextureAtlasPage) (w h ps : Nat)
    (hf : (p.canFit w h ps).1 = true) : (p.canFit w h ps).2.y + h ≤ ps := by
  unfold canFit at hf ⊢
  by_cases hx : p.x + w > ps <;> simp [hx] at hf ⊢ <;> omega

end TextureAtlasPage

namespace TextureAtlas

/-- The page-bounds invariant over the whole atlas. -/
def InBounds (a : TextureAtlas) : Prop :=
  a.cur.InBounds a.pageSize ∧ ∀ p ∈ a.older, p.InBounds a.pageSize

theorem allocateGlyph_pageSize (a : TextureAtlas) (w h : Nat) (key : String) :
    (a.allocateGlyph w h key).2.pageSize = a.pageSize := by
  unfold allocateGlyph
  by_cases hf : (a.cur.canFit w h a.pageSize).1 <;> simp [hf]

theorem getGlyph_pageSize (raster : Char → GlyphStyle → Nat × Nat)
    (a : TextureAtlas) (c : Char) (s : GlyphStyle) :
    (a.getGlyph raster c s).2.pageSize = a.pageSize := by
  rcases hl : a.cache.lookup (makeKey c s) with _ | g'
  · rw [getGlyph_miss raster a c s hl, allocateGlyph_pageSize]
  · rw [getGlyph_hit raster a c s g' hl]

theorem inBounds_allocateGlyph (a : TextureAtlas) (w h : Nat) (key : String)
    (hw : w ≤ a.pageSize) (hh : h ≤ a.pageSize) (ha : InBounds a) :
    InBounds (a.allocateGlyph w h key).2 := by
  obtain ⟨hcur, holder⟩ := ha
  have hfitb := TextureAtlasPage.canFit_inBounds a.cur w h a.pageSize hcur
  have hfitx := TextureAtlasPage.canFit_x a.cur w h a.pageSize
  obtain ⟨hbx, hby, hbg⟩ := hfitb
  unfold InBounds
  rw [allocateGlyph_pageSize]
  unfold allocateGlyph
  by_cases hf : (a.cur.canFit w h a.pageSize).1 <;>
    simp only [hf, ite_true, ite_false, Bool.false_eq_true]
  · have hfity := TextureAtlasPage.canFit_true_y a.cur w h a.pageSize hf
    refine ⟨⟨?_, ?_, ?_⟩, holder⟩
    · dsimp only [TextureAtlasPage.allocate, TextureAtlasPage.InBounds]
      omega
    · dsimp only [TextureAtlasPage.allocate]
      omega
    · intro g hg
      dsimp only [TextureAtlasPage.allocate] at hg
      rcases List.mem_append.1 hg with hg | hg
      · exact hbg g hg
      · rcases List.mem_singleton.1 hg with rfl
        dsimp only
        omega
  · refine ⟨⟨?_, ?_, ?_⟩, ?_⟩
    · dsimp only [TextureAtlasPage.allocate, TextureAtlasPage.fresh]
      omega
    · dsimp only [TextureAtlasPage.allocate, TextureAtlasPage.fresh]
      omega
    · intro g hg
      dsimp only [TextureAtlasPage.allocate, TextureAtlasPage.fresh] at hg
      rcases List.mem_append.1 hg with hg | hg
      · exact absurd hg (List.not_mem_nil g)
      · rcases List.mem_singleton.1 hg with rfl
        exact ⟨by dsimp only; omega, by dsimp only; omega⟩
    · intro p hp
      rcases List.mem_cons.1 hp with rfl | hp
      · exact ⟨hbx, hby, hbg⟩
      · exact holder p hp

theorem inBounds_getGlyph (raster : Char → GlyphStyle → Nat × Nat)
    (a : TextureAtlas) (c : Char) (s : GlyphStyle)
    (hra : ∀ c' s', (raster c' s').1 ≤ a.pageSize ∧ (raster c' s').2 ≤ a.pageSize)
    (ha : InBounds a) : InBounds (a.getGlyph raster c s).2 := by
  rcases hl : a.cache.lookup (makeKey c s) with _ | g'
  · rw [getGlyph_miss raster a c s hl]
    exact inBounds_allocateGlyph _ _ _ _ (hra c s).1 (hra c s).2 ⟨ha.1, ha.2⟩
  · rw [getGlyph_hit raster a c s g' hl]
    exact ha

theorem inBounds_run (raster : Char → GlyphStyle → Nat × Nat)
    (reqs : List (Char × GlyphStyle)) (a : TextureAtlas)
    (hra : ∀ c' s', (raster c' s').1 ≤ a.pageSize ∧ (raster c' s').2 ≤ a.pageSize)
    (ha : InBounds a) : InBounds (a.run raster reqs) := by
  induction reqs generalizing a with
  | nil => exact ha
  | cons r rest ih =>
      refine ih _ ?_ (inBounds_getGlyph raster a r.1 r.2 hra ha)
      rw [getGlyph_pageSize]
      exact hra

theorem run_pageSize (raster : Char → GlyphStyle → Nat × Nat)
    (reqs : List (Char × GlyphStyle)) (a : TextureAtlas) :
    (a.run raster reqs).pageSize = a.pageSize := by
  induction reqs generalizing a with
  | nil => rfl
  | cons r rest ih => rw [run, List.foldl_cons, ← run, ih, getGlyph_pageSize]

end TextureAtlas

namespace TextureAtlas

theorem pagesList_length (a : TextureAtlas) : a.pagesList.length = a.pageCount := by
  simp [pagesList, pageCount]

/-- On overflow of the current page, `allocateGlyph` creates a fresh
page and places the bitmap at that new page's origin; the glyph's
`page` field is the new page's index. -/
theorem allocateGlyph_overflow (a : TextureAtlas) (w h : Nat) (key : String)
    (hf : (a.cur.canFit w h a.pageSize).1 = false) :
    (a.allocateGlyph w h key).2.pageCount = a.pageCount + 1 ∧
    (a.allocateGlyph w h key).1.page = a.pageCount ∧
    (a.allocateGlyph w h key).1.x = 0 ∧
    (a.allocateGlyph w h key).1.y = 0 := by
  unfold allocateGlyph
  simp [hf, pageCount, TextureAtlasPage.allocate, TextureAtlasPage.fresh]

/-- Every page existing before a `getGlyph` call keeps its position in
the page array, and its glyph list is only ever appended to — no
placed bitmap is removed or replaced. -/
theorem take_append_len1 {α : Type} (l : List α) (p : α) :
    (l ++ [p]).take (l.length + 1) = l ++ [p] := by
  rw [show l.length + 1 = (l ++ [p]).length from by simp, List.take_length]

theorem take_append_len2 {α : Type} (l : List α) (p q : α) :
    ((l ++ [p]) ++ [q]).take (l.length + 1) = l ++ [p] := by
  rw [show l.length + 1 = (l ++ [p]).length from by simp, List.take_left]

/-- Every page existing before a `getGlyph` call keeps its position in
the page array, and its glyph list is only ever appended to — no
placed bitmap is removed or replaced. -/
theorem getGlyph_pages_extend (raster : Char → GlyphStyle → Nat × Nat)
    (a : TextureAtlas) (c : Char) (s : GlyphStyle) :
    List.Forall₂ (fun p p' => ∃ t, p'.glyphs = p.glyphs ++ t)
      a.pagesList (((a.getGlyph raster c s).2.pagesList).take a.pageCount) := by
  have hsame : ∀ l : List TextureAtlasPage,
      List.Forall₂ (fun p p' => ∃ t, p'.glyphs = p.glyphs ++ t) l l :=
    fun l => List.forall₂_same.2 fun p _ => ⟨[], by simp⟩
  rcases hl : a.cache.lookup (makeKey c s) with _ | g'
  · rw [getGlyph_miss raster a c s hl]
    have hfitg := TextureAtlasPage.canFit_glyphs a.cur (raster c s).1
      (raster c s).2 a.pageSize
    unfold allocateGlyph
    by_cases hf : (a.cur.canFit (raster c s).1 (raster c s).2 a.pageSize).1 <;>
      simp only [hf, ite_true, ite_false, Bool.false_eq_true]
    · dsimp only [pagesList]
      rw [show a.pageCount = a.older.reverse.length + 1 from by simp [pageCount],
        take_append_len1]
      refine List.rel_append (hsame _) (List.Forall₂.cons ?_ List.Forall₂.nil)
      dsimp only [TextureAtlasPage.allocate]
      rw [hfitg]
      exact ⟨_, rfl⟩
    · dsimp only [pagesList]
      rw [List.reverse_cons,
        show a.pageCount = a.older.reverse.length + 1 from by simp [pageCount],
        take_append_len2]
      refine List.rel_append (hsame _) (List.Forall₂.cons ⟨[], by simp [hfitg]⟩
        List.Forall₂.nil)
  · rw [getGlyph_hit raster a c s g' hl, ← pagesList_length a, List.take_length]
    exact hsame _

end TextureAtlas

/-!
## Claim C5
-/

/-- C5: for every request sequence in which each rasterized bitmap
fits inside a page (`width, height ≤ pageSize` — true of glyph bitmaps
by construction), after every allocation (1) every page's shelf cursor
and every placed rectangle lie within the `pageSize × pageSize`
bounds; (2) when a bitmap would overflow the current page
(`canFit = false`) a brand-new page is created, the page count grows
by one, and the bitmap is placed at the new page's origin; and
(3) a `getGlyph` step never overwrites an already-placed bitmap:
every existing page keeps its position and its glyph list is only
appended to. -/
theorem c5_bounds (ps : Nat) (raster : Char → GlyphStyle → Nat × Nat)
    (reqs : List (Char × GlyphStyle))
    (hra : ∀ c' s', (raster c' s').1 ≤ ps ∧ (raster c' s').2 ≤ ps) :
    (∀ p ∈ ((TextureAtlas.initial ps).run raster reqs).pagesList,
      p.x ≤ ps ∧ p.y + p.rowHeight ≤ ps ∧
        ∀ g ∈ p.glyphs, g.x + g.width ≤ ps ∧ g.y + g.height ≤ ps) ∧
    (∀ (a : TextureAtlas) (w h : Nat) (key : String),
      (a.cur.canFit w h a.pageSize).1 = false →
        (a.allocateGlyph w h key).2.pageCount = a.pageCount + 1 ∧
        (a.allocateGlyph w h key).1.page = a.pageCount ∧
        (a.allocateGlyph w h key).1.x = 0 ∧
        (a.allocateGlyph w h key).1.y = 0) ∧
    (∀ (a : TextureAtlas) (c : Char) (s : GlyphStyle),
      List.Forall₂ (fun p p' => ∃ t, p'.glyphs = p.glyphs ++ t)
        a.pagesList (((a.getGlyph raster c s).2.pagesList).take a.pageCount)) := by
  refine ⟨?_, TextureAtlas.allocateGlyph_overflow,
    fun a c s => TextureAtlas.getGlyph_pages_extend raster a c s⟩
  have hps : ((TextureAtlas.initial ps)).pageSize = ps := rfl
  have hb := TextureAtlas.inBounds_run raster reqs (TextureAtlas.initial ps)
    (by rw [hps]; exact hra)
    ⟨TextureAtlasPage.inBounds_fresh ps, by simp [TextureAtlas.initial]⟩
  have hps' := TextureAtlas.run_pageSize raster reqs (TextureAtlas.initial ps)
  intro p hp
  rw [hps] at hps'
  unfold TextureAtlas.pagesList at hp
  rcases List.mem_append.1 hp with hp | hp
  · have := hb.2 p (List.mem_reverse.1 hp)
    rw [hps'] at this
    exact this
  · rcases List.mem_singleton.1 hp with rfl
    have := hb.1
    rw [hps'] at this
    exact this

/-- C5 witness: a concrete run with 3×4 bitmaps on 2048-pixel pages. -/
theorem c5_witness :
    (∀ c' s', (rasterK c' s').1 ≤ 2048 ∧ (rasterK c' s').2 ≤ 2048) ∧
    (∀ p ∈ ((TextureAtlas.initial 2048).run rasterK
        [('a', renderStyle), ('b', renderStyle)]).pagesList,
      p.x ≤ 2048 ∧ p.y + p.rowHeight ≤ 2048 ∧
        ∀ g ∈ p.glyphs, g.x + g.width ≤ 2048 ∧ g.y + g.height ≤ 2048) :=
  ⟨fun c' s' => ⟨by norm_num [rasterK], by norm_num [rasterK]⟩,
    (c5_bounds 2048 rasterK [('a', renderStyle), ('b', renderStyle)]
      (fun c' s' => ⟨by norm_num [rasterK], by norm_num [rasterK]⟩)).1⟩

/-!
## Claim C6
-/

/-- A measurement oracle under which the zero-width space U+200B has
advance width 0 (as real text engines report for zero-width
characters), while everything else measures normally. -/
def zeroWidthMeasure : Char → GlyphStyle → TextMetrics :=
  fun c _ =>
    if c = Char.ofNat 0x200B then
      { width := 0, fontBoundingBoxAscent := 11, fontBoundingBoxDescent := 3 }
    else
      { width := 8, fontBoundingBoxAscent := 11, fontBoundingBoxDescent := 3 }

/-- C6 (code behavior at the failing input): for a character whose
measured advance width is 0, `rasterize` computes `width = 0` and its
`getImageData(0, 0, 0, height)` call throws `IndexSizeError`; with no
try/catch and no fallback-bitmap path anywhere in `rasterize` or
`getGlyph`, the exception propagates out of `getGlyph` to the
renderer's caller, and nothing is cached.  This contradicts the
claimed local recovery with a fallback glyph. -/
theorem c6_failure_propagates :
    (TextureAtlas.initial 2048).getGlyphE zeroWidthMeasure
      (Char.ofNat 0x200B) renderStyle = Except.error "IndexSizeError" := by
  have hmiss : (TextureAtlas.initial 2048).cache.lookup
      (TextureAtlas.makeKey (Char.ofNat 0x200B) renderStyle) = none := rfl
  simp only [TextureAtlas.getGlyphE]
  rw [hmiss]
  simp only [GlyphRasterizer.rasterize, zeroWidthMeasure, ite_true, if_true]
  norm_num

/-!
## The cell build versus its candidate description
-/

/-- The character loop appends, in order, the positions of the line's
non-space characters until the capacity is reached: the produced cell
positions extend the accumulator by `take (cap - count)` of the line's
candidates, and the glyph counter advances by exactly the number of
cells appended. -/
theorem buildLineAux_spec (cap : Nat) (raster : Char → GlyphStyle → Nat × Nat)
    (cw y : ℚ) :
    ∀ (chars : List Char) (i : Nat) (cells : List Cell) (count : Nat)
      (a : TextureAtlas),
      (buildLineAux cap raster cw y chars i cells count a).1.map Cell.pos =
        cells.map Cell.pos ++ (lineCandidates cw y chars i).take (cap - count) ∧
      (buildLineAux cap raster cw y chars i cells count a).2.2 =
        count + min (lineCandidates cw y chars i).length (cap - count) := by
  intro chars
  induction chars with
  | nil =>
      intro i cells count a
      simp [buildLineAux, lineCandidates]
  | cons c rest ih =>
      intro i cells count a
      by_cases hcap : count < cap
      · by_cases hsp : c = ' '
        · subst hsp
          simp only [buildLineAux, lineCandidates, hcap, if_true, ite_true]
          exact ih (i + 1) cells count a
        · simp only [buildLineAux, lineCandidates, hcap, hsp, if_true,
            if_false, ite_true, ite_false]
          obtain ⟨ih1, ih2⟩ := ih (i + 1)
            (cells ++ [mkCell ((i : ℚ) * cw) y
              (TextureAtlas.getGlyph raster a c renderStyle).1])
            (count + 1) (TextureAtlas.getGlyph raster a c renderStyle).2
          refine ⟨?_, ?_⟩
          · rw [ih1]
            rw [show cap - count = (cap - (count + 1)) + 1 from by omega,
              List.take_succ_cons]
            simp [Cell.pos, mkCell]
          · rw [ih2]
            simp only [List.length_cons]
            omega
      · simp only [buildLineAux, hcap, if_false, ite_false]
        refine ⟨?_, ?_⟩
        · rw [show cap - count = 0 from by omega]
          simp
        · rw [show cap - count = 0 from by omega]
          simp

/-- The line loop composes the per-line behavior: overall, the cell
positions are the first `cap - count` frame candidates in scan order,
and the final glyph count is `count + min N (cap - count)`. -/
theorem buildCells_spec (cap : Nat) (raster : Char → GlyphStyle → Nat × Nat)
    (cfg : RenderConfig) :
    ∀ (lines : List LineData) (s : ℚ) (cells : List Cell) (count : Nat)
      (a : TextureAtlas),
      (buildCells cap raster cfg lines s cells count a).1.map Cell.pos =
        cells.map Cell.pos ++ (allCandidates cfg lines s).take (cap - count) ∧
      (buildCells cap raster cfg lines s cells count a).2.2 =
        count + min (allCandidates cfg lines s).length (cap - count) := by
  intro lines
  induction lines with
  | nil =>
      intro s cells count a
      simp [buildCells, allCandidates]
  | cons ld rest ih =>
      intro s cells count a
      by_cases hy : ((ld.lineNumber : ℚ) * cfg.lineHeight - s) + cfg.lineHeight < 0 ∨
          ((ld.lineNumber : ℚ) * cfg.lineHeight - s) > cfg.canvasHeight
      · simp only [buildCells, allCandidates, hy, if_true, ite_true]
        exact ih s cells count a
      · simp only [buildCells, allCandidates, hy, if_false, ite_false]
        obtain ⟨hl1, hl2⟩ := buildLineAux_spec cap raster cfg.charWidth
          ((ld.lineNumber : ℚ) * cfg.lineHeight - s) ld.line 0 cells count a
        obtain ⟨ih1, ih2⟩ := ih s
          (buildLineAux cap raster cfg.charWidth
            ((ld.lineNumber : ℚ) * cfg.lineHeight - s) ld.line 0 cells count a).1
          (buildLineAux cap raster cfg.charWidth
            ((ld.lineNumber : ℚ) * cfg.lineHeight - s) ld.line 0 cells count a).2.2
          (buildLineAux cap raster cfg.charWidth
            ((ld.lineNumber : ℚ) * cfg.lineHeight - s) ld.line 0 cells count a).2.1
        refine ⟨?_, ?_⟩
        · have harith : ∀ x e : Nat, cap - (x + min e (cap - x)) = (cap - x) - e :=
            fun x e => by omega
          rw [ih1, hl1, hl2, List.take_append_eq_append_take, List.append_assoc,
            harith]
        · rw [ih2, hl2]
          simp only [List.length_append]
          omega

theorem renderModel_cells (cap : Nat) (raster : Char → GlyphStyle → Nat × Nat)
    (cfg : RenderConfig) (lines : List LineData) (s : ℚ) (a : TextureAtlas) :
    (renderModel cap raster cfg lines s a).1 =
      (buildCells cap raster cfg lines s [] 0 a).1 := by
  simp only [renderModel]
  split <;> rfl

theorem renderModel_atlas (cap : Nat) (raster : Char → GlyphStyle → Nat × Nat)
    (cfg : RenderConfig) (lines : List LineData) (s : ℚ) (a : TextureAtlas) :
    (renderModel cap raster cfg lines s a).2.2 =
      (buildCells cap raster cfg lines s [] 0 a).2.1 := by
  simp only [renderModel]
  split <;> rfl

theorem renderModel_draws (cap : Nat) (raster : Char → GlyphStyle → Nat × Nat)
    (cfg : RenderConfig) (lines : List LineData) (s : ℚ) (a : TextureAtlas) :
    (renderModel cap raster cfg lines s a).2.1 =
      if (buildCells cap raster cfg lines s [] 0 a).2.2 = 0 then []
      else [(buildCells cap raster cfg lines s [] 0 a).2.2] := by
  simp only [renderModel]
  split <;> simp_all

/-!
## Claim C1
-/

/-- C1 counterexample: a frame with `N = 0` visible non-whitespace
characters (here: no visible lines at all) satisfies
`N ≤ MAX_VISIBLE_GLYPHS`, but `render` issues *zero* draw calls for it
— the `glyphCount === 0` early return fires before the draw — not the
claimed "exactly one draw call with instance count 0". -/
theorem c1_counterexample :
    visibleCount cfgK [] 0 = 0 ∧
    visibleCount cfgK [] 0 ≤ MAX_VISIBLE_GLYPHS ∧
    (render rasterK cfgK [] 0 (TextureAtlas.initial 2048)).2.1.length = 0 :=
  ⟨rfl, by norm_num [visibleCount, allCandidates], rfl⟩

/-- C1 (amended): for a frame whose number `N` of visible
non-whitespace-skipped characters satisfies `N ≤ cap` (the instance
capacity), the renderer issues exactly one instanced draw call with
instance count `N` whenever `1 ≤ N`, and issues *no* draw call when
`N = 0` (early return before the draw submission). -/
theorem c1_amended (cap : Nat) (raster : Char → GlyphStyle → Nat × Nat)
    (cfg : RenderConfig) (lines : List LineData) (s : ℚ) (a : TextureAtlas)
    (hcap : visibleCount cfg lines s ≤ cap) :
    (renderModel cap raster cfg lines s a).2.1 =
      if visibleCount cfg lines s = 0 then []
      else [visibleCount cfg lines s] := by
  have hcount := (buildCells_spec cap raster cfg lines s [] 0 a).2
  have hN : (buildCells cap raster cfg lines s [] 0 a).2.2 =
      visibleCount cfg lines s := by
    rw [hcount]
    unfold visibleCount at hcap ⊢
    omega
  rw [renderModel_draws, hN]

/-- C1 witness: a two-character line well under capacity gets one draw
call with instance count 2. -/
theorem c1_witness :
    visibleCount cfgK [{ line := ['a', 'b'], lineNumber := 0 }] 0 ≤
      MAX_VISIBLE_GLYPHS ∧
    (renderModel MAX_VISIBLE_GLYPHS rasterK cfgK
        [{ line := ['a', 'b'], lineNumber := 0 }] 0
        (TextureAtlas.initial 2048)).2.1 =
      if visibleCount cfgK [{ line := ['a', 'b'], lineNumber := 0 }] 0 = 0 then []
      else [visibleCount cfgK [{ line := ['a', 'b'], lineNumber := 0 }] 0] :=
  ⟨by norm_num +decide [visibleCount, allCandidates, lineCandidates, cfgK,
      MAX_VISIBLE_GLYPHS],
    c1_amended MAX_VISIBLE_GLYPHS rasterK cfgK
      [{ line := ['a', 'b'], lineNumber := 0 }] 0 (TextureAtlas.initial 2048)
      (by norm_num +decide [visibleCount, allCandidates, lineCandidates, cfgK,
        MAX_VISIBLE_GLYPHS])⟩

/-!
## Claim C7
-/

/-- C7: for a frame with more visible characters than the instance
capacity, exactly `cap` cells are appended (the first `cap` candidates
in scan order — later characters are simply not drawn), exactly one
draw call with instance count `cap` is issued, no error is raised (the
build is total), and the single buffer write covers at most the
pre-allocated `cap * FLOATS_PER_CELL` floats — the instance buffer is
never grown mid-frame. -/
theorem c7_truncation (cap : Nat) (raster : Char → GlyphStyle → Nat × Nat)
    (cfg : RenderConfig) (lines : List LineData) (s : ℚ) (a : TextureAtlas)
    (hcap : 1 ≤ cap) (hN : cap < visibleCount cfg lines s) :
    (renderModel cap raster cfg lines s a).1.length = cap ∧
    (renderModel cap raster cfg lines s a).1.map Cell.pos =
      (allCandidates cfg lines s).take cap ∧
    (renderModel cap raster cfg lines s a).2.1 = [cap] ∧
    (renderModel cap raster cfg lines s a).1.length * FLOATS_PER_CELL ≤
      cap * FLOATS_PER_CELL := by
  obtain ⟨hpos, hcount⟩ := buildCells_spec cap raster cfg lines s [] 0 a
  have hc : (buildCells cap raster cfg lines s [] 0 a).2.2 = cap := by
    rw [hcount]
    unfold visibleCount at hN
    omega
  have hposr : (renderModel cap raster cfg lines s a).1.map Cell.pos =
      (allCandidates cfg lines s).take cap := by
    rw [renderModel_cells, hpos]
    simp
  have hlen : (renderModel cap raster cfg lines s a).1.length = cap := by
    have := congrArg List.length hposr
    simp only [List.length_map, List.length_take] at this
    unfold visibleCount at hN
    omega
  refine ⟨hlen, hposr, ?_, by rw [hlen]⟩
  rw [renderModel_draws, hc, if_neg (by omega)]

/-- C7 witness: capacity 2, three visible characters: two cells, one
draw call of instance count 2. -/
theorem c7_witness :
    1 ≤ 2 ∧ 2 < visibleCount cfgK [{ line := ['a', 'b', 'c'], lineNumber := 0 }] 0 ∧
    (renderModel 2 rasterK cfgK [{ line := ['a', 'b', 'c'], lineNumber := 0 }] 0
      (TextureAtlas.initial 2048)).2.1 = [2] :=
  ⟨le_refl 1 |>.trans (by norm_num),
    by norm_num +decide [visibleCount, allCandidates, lineCandidates, cfgK],
    (c7_truncation 2 rasterK cfgK [{ line := ['a', 'b', 'c'], lineNumber := 0 }] 0
      (TextureAtlas.initial 2048) (by norm_num)
      (by norm_num +decide [visibleCount, allCandidates, lineCandidates, cfgK])).2.2.1⟩

/-!
## Claim C10
-/

/-- C10: in an untruncated frame (`N ≤ cap`), the cell positions of
the instance buffer are exactly `allCandidates`: per retained line, in
the given line order, one cell per character *except the ASCII space*
— every other character, tab included, yields exactly one cell — at
`x = i * charWidth` for string index `i` (no tab expansion), in
left-to-right order. -/
theorem c10_cells_exact (cap : Nat) (raster : Char → GlyphStyle → Nat × Nat)
    (cfg : RenderConfig) (lines : List LineData) (s : ℚ) (a : TextureAtlas)
    (hcap : visibleCount cfg lines s ≤ cap) :
    (renderModel cap raster cfg lines s a).1.map Cell.pos =
      allCandidates cfg lines s := by
  obtain ⟨hpos, _⟩ := buildCells_spec cap raster cfg lines s [] 0 a
  rw [renderModel_cells, hpos]
  simp only [List.map_nil, List.nil_append, Nat.sub_zero]
  exact List.take_of_length_le hcap

/-- C10 witness: a line containing a tab and a space — the tab (index
1) is kept at `x = 1 * charWidth`, the space (index 2) is skipped, and
`'b'` (index 3) sits at `x = 3 * charWidth` with no tab expansion. -/
theorem c10_witness :
    visibleCount cfgK [{ line := ['a', '\t', ' ', 'b'], lineNumber := 0 }] 0 ≤
        MAX_VISIBLE_GLYPHS ∧
    (renderModel MAX_VISIBLE_GLYPHS rasterK cfgK
        [{ line := ['a', '\t', ' ', 'b'], lineNumber := 0 }] 0
        (TextureAtlas.initial 2048)).1.map Cell.pos =
      allCandidates cfgK [{ line := ['a', '\t', ' ', 'b'], lineNumber := 0 }] 0 :=
  ⟨by norm_num +decide [visibleCount, allCandidates, lineCandidates, cfgK,
      MAX_VISIBLE_GLYPHS],
    c10_cells_exact MAX_VISIBLE_GLYPHS rasterK cfgK
      [{ line := ['a', '\t', ' ', 'b'], lineNumber := 0 }] 0
      (TextureAtlas.initial 2048)
      (by norm_num +decide [visibleCount, allCandidates, lineCandidates, cfgK,
        MAX_VISIBLE_GLYPHS])⟩

/-!
## Claim C8
-/

theorem lineCandidates_posX (cw y : ℚ) :
    ∀ (chars : List Char) (i : Nat) (q : ℚ × ℚ),
      q ∈ lineCandidates cw y chars i → ∃ j : Nat, q.1 = (j : ℚ) * cw := by
  intro chars
  induction chars with
  | nil => intro i q hq; simp [lineCandidates] at hq
  | cons c rest ih =>
      intro i q hq
      by_cases hsp : c = ' '
      · rw [lineCandidates, if_pos hsp] at hq
        exact ih (i + 1) q hq
      · rw [lineCandidates, if_neg hsp] at hq
        rcases List.mem_cons.1 hq with rfl | hq
        · exact ⟨i, rfl⟩
        · exact ih (i + 1) q hq

theorem allCandidates_posX (cfg : RenderConfig) :
    ∀ (lines : List LineData) (s : ℚ) (q : ℚ × ℚ),
      q ∈ allCandidates cfg lines s → ∃ j : Nat, q.1 = (j : ℚ) * cfg.charWidth := by
  intro lines
  induction lines with
  | nil => intro s q hq; simp [allCandidates] at hq
  | cons ld rest ih =>
      intro s q hq
      by_cases hy : ((ld.lineNumber : ℚ) * cfg.lineHeight - s) + cfg.lineHeight < 0 ∨
          ((ld.lineNumber : ℚ) * cfg.lineHeight - s) > cfg.canvasHeight
      · rw [allCandidates, if_pos hy] at hq
        exact ih s q hq
      · rw [allCandidates, if_neg hy] at hq
        rcases List.mem_append.1 hq with hq | hq
        · exact lineCandidates_posX cfg.charWidth _ ld.line 0 q hq
        · exact ih s q hq

/-- C8: with the font detected as monospace,
`MonospaceOptimizer.getCharPosition(column)` is *exactly*
`column * charWidth` for every column; that single product equals the
column-fold of repeated additions in exact arithmetic, so no drift can
accumulate across the columns of a line; and every cell the renderer
emits has `x = i * charWidth` for its string index `i` — the
renderer's per-character x computation is the same single product. -/
theorem c8_monospace_exact (st : MonospaceOptimizer)
    (measureWidth : List Char → ℚ) (column : Nat) (text : List Char)
    (h : st.isMonospace = true) :
    st.getCharPosition measureWidth column text = (column : ℚ) * st.charWidth ∧
    (column : ℚ) * st.charWidth =
      (List.range column).foldl (fun acc _ => acc + st.charWidth) 0 ∧
    ∀ (cap : Nat) (raster : Char → GlyphStyle → Nat × Nat)
      (cfg : RenderConfig) (lines : List LineData) (s : ℚ) (a : TextureAtlas),
      ∀ cl ∈ (renderModel cap raster cfg lines s a).1,
        ∃ i : Nat, cl.posX = (i : ℚ) * cfg.charWidth := by
  refine ⟨by rw [MonospaceOptimizer.getCharPosition, if_pos h], ?_, ?_⟩
  · have hfold : ∀ n : Nat, ∀ z : ℚ,
        (List.range n).foldl (fun acc _ => acc + st.charWidth) z =
          z + (n : ℚ) * st.charWidth := by
      intro n
      induction n with
      | zero => intro z; simp
      | succ m ihm =>
          intro z
          rw [List.range_succ, List.foldl_append, ihm]
          simp only [List.foldl_cons, List.foldl_nil]
          push_cast
          ring
    rw [hfold]
    ring
  · intro cap raster cfg lines s a cl hcl
    obtain ⟨hpos, _⟩ := buildCells_spec cap raster cfg lines s [] 0 a
    have hmem : Cell.pos cl ∈ (renderModel cap raster cfg lines s a).1.map Cell.pos :=
      List.mem_map_of_mem Cell.pos hcl
    rw [renderModel_cells, hpos] at hmem
    simp only [List.map_nil, List.nil_append, Nat.sub_zero] at hmem
    have hmem2 : Cell.pos cl ∈ allCandidates cfg lines s :=
      List.take_subset _ _ hmem
    exact allCandidates_posX cfg lines s (Cell.pos cl) hmem2

/-- C8 witness: a concrete monospace state with `charWidth = 7`. -/
theorem c8_witness :
    MonospaceOptimizer.isMonospace { isMonospace := true, charWidth := 7 } = true ∧
    MonospaceOptimizer.getCharPosition { isMonospace := true, charWidth := 7 }
        (fun _ => 0) 3 [] = (3 : ℚ) * 7 :=
  ⟨rfl, (c8_monospace_exact { isMonospace := true, charWidth := 7 }
    (fun _ => 0) 3 [] rfl).1⟩

/-!
## Claim C9: determinism of the per-frame build
-/

/-- Predicate: `b` retains every cache binding of `a`. -/
def CachePreserved (a b : TextureAtlas) : Prop :=
  ∀ k g, a.cache.lookup k = some g → b.cache.lookup k = some g

theorem cachePreserved_refl (a : TextureAtlas) : CachePreserved a a :=
  fun _ _ h => h

theorem cachePreserved_trans {a b c : TextureAtlas}
    (h₁ : CachePreserved a b) (h₂ : CachePreserved b c) : CachePreserved a c :=
  fun k g h => h₂ k g (h₁ k g h)

theorem cachePreserved_getGlyph (raster : Char → GlyphStyle → Nat × Nat)
    (a : TextureAtlas) (c : Char) (s : GlyphStyle) :
    CachePreserved a (a.getGlyph raster c s).2 :=
  fun k g h => TextureAtlas.getGlyph_lookup_mono raster a c s k g h

theorem cachePreserved_buildLineAux (cap : Nat)
    (raster : Char → GlyphStyle → Nat × Nat) (cw y : ℚ) :
    ∀ (chars : List Char) (i : Nat) (cells : List Cell) (count : Nat)
      (a : TextureAtlas),
      CachePreserved a (buildLineAux cap raster cw y chars i cells count a).2.1 := by
  intro chars
  induction chars with
  | nil =>
      intro i cells count a
      simp only [buildLineAux]
      exact cachePreserved_refl a
  | cons c rest ih =>
      intro i cells count a
      by_cases hcap : count < cap
      · by_cases hsp : c = ' '
        · simp only [buildLineAux, hcap, hsp, if_true, ite_true]
          exact ih (i + 1) cells count a
        · simp only [buildLineAux, hcap, hsp, if_true, if_false, ite_true, ite_false]
          exact cachePreserved_trans
            (cachePreserved_getGlyph raster a c renderStyle)
            (ih (i + 1) _ (count + 1) _)
      · simp only [buildLineAux, hcap, if_false, ite_false]
        exact cachePreserved_refl a

theorem cachePreserved_buildCells (cap : Nat)
    (raster : Char → GlyphStyle → Nat × Nat) (cfg : RenderConfig) :
    ∀ (lines : List LineData) (s : ℚ) (cells : List Cell) (count : Nat)
      (a : TextureAtlas),
      CachePreserved a (buildCells cap raster cfg lines s cells count a).2.1 := by
  intro lines
  induction lines with
  | nil =>
      intro s cells count a
      simp only [buildCells]
      exact cachePreserved_refl a
  | cons ld rest ih =>
      intro s cells count a
      by_cases hy : ((ld.lineNumber : ℚ) * cfg.lineHeight - s) + cfg.lineHeight < 0 ∨
          ((ld.lineNumber : ℚ) * cfg.lineHeight - s) > cfg.canvasHeight
      · simp only [buildCells, hy, if_true, ite_true]
        exact ih s cells count a
      · simp only [buildCells, hy, if_false, ite_false]
        exact cachePreserved_trans
          (cachePreserved_buildLineAux cap raster cfg.charWidth _ ld.line 0 cells count a)
          (ih s _ _ _)

/-- Replaying the character loop against any atlas that retains the
bindings present at the end of the original run reproduces the same
cells and the same glyph count, and performs only cache hits (the
atlas comes back unchanged). -/
theorem buildLineAux_replay (cap : Nat)
    (raster : Char → GlyphStyle → Nat × Nat) (cw y : ℚ) :
    ∀ (chars : List Char) (i : Nat) (cells : List Cell) (count : Nat)
      (a A : TextureAtlas),
      CachePreserved (buildLineAux cap raster cw y chars i cells count a).2.1 A →
      buildLineAux cap raster cw y chars i cells count A =
        ((buildLineAux cap raster cw y chars i cells count a).1, A,
          (buildLineAux cap raster cw y chars i cells count a).2.2) := by
  intro chars
  induction chars with
  | nil =>
      intro i cells count a A _
      simp only [buildLineAux]
  | cons c rest ih =>
      intro i cells count a A hp
      by_cases hcap : count < cap
      · by_cases hsp : c = ' '
        · simp only [buildLineAux, hcap, hsp, if_true, ite_true] at hp ⊢
          exact ih (i + 1) cells count a A hp
        · simp only [buildLineAux, hcap, hsp, if_true, if_false, ite_true,
            ite_false] at hp ⊢
          have hkey : A.cache.lookup (TextureAtlas.makeKey c renderStyle) =
              some (TextureAtlas.getGlyph raster a c renderStyle).1 := by
            refine hp _ _ ?_
            refine cachePreserved_buildLineAux cap raster cw y rest (i + 1) _
              (count + 1) (TextureAtlas.getGlyph raster a c renderStyle).2 _ _ ?_
            exact TextureAtlas.getGlyph_lookup_self raster a c renderStyle
          rw [TextureAtlas.getGlyph_hit raster A c renderStyle _ hkey]
          exact ih (i + 1) _ (count + 1) _ A hp
      · simp only [buildLineAux, hcap, if_false, ite_false]

/-- Replaying the whole line loop against an atlas retaining the
original run's final cache reproduces the same cells and count with
the atlas unchanged. -/
theorem buildCells_replay (cap : Nat)
    (raster : Char → GlyphStyle → Nat × Nat) (cfg : RenderConfig) :
    ∀ (lines : List LineData) (s : ℚ) (cells : List Cell) (count : Nat)
      (a A : TextureAtlas),
      CachePreserved (buildCells cap raster cfg lines s cells count a).2.1 A →
      buildCells cap raster cfg lines s cells count A =
        ((buildCells cap raster cfg lines s cells count a).1, A,
          (buildCells cap raster cfg lines s cells count a).2.2) := by
  intro lines
  induction lines with
  | nil =>
      intro s cells count a A _
      simp only [buildCells]
  | cons ld rest ih =>
      intro s cells count a A hp
      by_cases hy : ((ld.lineNumber : ℚ) * cfg.lineHeight - s) + cfg.lineHeight < 0 ∨
          ((ld.lineNumber : ℚ) * cfg.lineHeight - s) > cfg.canvasHeight
      · simp only [buildCells, hy, if_true, ite_true] at hp ⊢
        exact ih s cells count a A hp
      · simp only [buildCells, hy, if_false, ite_false] at hp ⊢
        have hline := buildLineAux_replay cap raster cfg.charWidth
          ((ld.lineNumber : ℚ) * cfg.lineHeight - s) ld.line 0 cells count a A
          (cachePreserved_trans
            (cachePreserved_buildCells cap raster cfg rest s _ _ _) hp)
        rw [hline]
        exact ih s _ _ _ A hp

/-- C9: the per-frame instance build is deterministic: rendering the
same visible lines at the same scroll offset twice in a row (the
second frame starting from the atlas state the first one produced)
yields byte-for-byte identical cell data and the same draw-call
submission. -/
theorem c9_deterministic (cap : Nat)
    (raster : Char → GlyphStyle → Nat × Nat) (cfg : RenderConfig)
    (lines : List LineData) (s : ℚ) (a : TextureAtlas) :
    (renderModel cap raster cfg lines s
        (renderModel cap raster cfg lines s a).2.2).1 =
      (renderModel cap raster cfg lines s a).1 ∧
    (renderModel cap raster cfg lines s
        (renderModel cap raster cfg lines s a).2.2).2.1 =
      (renderModel cap raster cfg lines s a).2.1 := by
  have hreplay := buildCells_replay cap raster cfg lines s [] 0 a
    (buildCells cap raster cfg lines s [] 0 a).2.1
    (cachePreserved_refl _)
  constructor
  · rw [renderModel_cells, renderModel_cells, renderModel_atlas, hreplay]
  · rw [renderModel_draws, renderModel_draws, renderModel_atlas, hreplay]
